import Mathlib

/-!
Formal model of the `futures-turnstyle` crate (`src/lib.rs`).

The source is a single Rust file.  Its shared state is

  pub struct Turnstyle {
      waiters: Arc<Mutex<VecDeque<oneshot::Sender<usize>>>>,
      version: Arc<AtomicUsize>,
  }

We embed the state shallowly.  A oneshot sender is identified by the
order in which `join` created it (field `nextId` generates fresh ids);
every sender in the `waiters` deque is represented by its id, head of
the list = front of the deque.  The monotone counter is `version`.
Deliveries that actually reached a channel are logged, in firing
order, in the ghost field `fired` as pairs `(slot id, sequence number
sent)`; a Waiter with id `i` has resolved with value `v` exactly when
`(i, v)` is in that log, since a oneshot channel delivers its single
value to its unique receiver.

Whether the receiver half of slot `w` is still alive (the Waiter has
not been discarded) is an environment fact, passed in as a predicate
`alive : Nat → Bool`.  In the source, `turn` pops the head sender,
does `fetch_add` on the counter and then runs

  w.send(version).expect("turnstyle failed to signal next in line");

`oneshot::Sender::send` returns `Err` precisely when the receiver was
dropped, so `expect` panics in that case.  A panic is modelled by
`Except.error`; the panic message is the `expect` message.  Once a
call panics no further state is observable, so the `.error` result
carries no state.

`impl Drop for Turnstyle` runs `while self.turn() {}`.  Note that in
the source `Turnstyle` derives `Clone` and the `Drop` glue runs for
every handle: the body never consults `Arc::strong_count`, so the
drain below is what dropping ANY handle does, whether or not other
clones of the same turnstyle are still alive.
-/

/-- The panic message of `turn`, from
`expect("turnstyle failed to signal next in line")` in the source. -/
def sendFailMsg : String := "turnstyle failed to signal next in line"

/-- Shared state of a turnstyle: the deque of pending senders (`waiters`,
each represented by its slot id, head first), the admission counter
(`version`), a supply of fresh slot ids (`nextId`: ids `0, 1, ...` in
join order), and the ghost log `fired` of values actually delivered,
as `(slot id, sequence number)` in firing order. -/
structure Turnstyle where
  waiters : List Nat
  version : Nat
  nextId : Nat
  fired : List (Nat × Nat)
deriving DecidableEq, Repr

namespace Turnstyle

/-- `Turnstyle::new()`: empty deque, counter at 0. -/
def new : Turnstyle :=
  { waiters := [], version := 0, nextId := 0, fired := [] }

/-- `Turnstyle::join()`: create a fresh oneshot channel, push the sender
onto the back of the deque, hand the receiver to the caller.  Returns
the new state together with the id of the slot backing the returned
`Waiter`. -/
def join (ts : Turnstyle) : Turnstyle × Nat :=
  ({ ts with waiters := ts.waiters ++ [ts.nextId], nextId := ts.nextId + 1 },
   ts.nextId)

/-- `Turnstyle::turn()`: pop the front sender, if any.  With no sender,
return `false` and change nothing.  Otherwise `fetch_add` the counter
and `send` the previous counter value; if the paired receiver is gone
the `expect` on the failed send panics (`Except.error`), otherwise the
delivery is logged and `true` is returned. -/
def turn (alive : Nat → Bool) (ts : Turnstyle) : Except String (Bool × Turnstyle) :=
  match ts.waiters with
  | [] => .ok (false, ts)
  | w :: rest =>
      if alive w then
        .ok (true, { ts with
                       waiters := rest,
                       version := ts.version + 1,
                       fired := ts.fired ++ [(w, ts.version)] })
      else
        .error sendFailMsg

/-- Fuelled form of the `while self.turn() {}` loop: call `turn` until it
returns `false` (or panics), giving up if the fuel runs out.  Any fuel
above the queue length reaches the `false` call, see
`turnWhile_fuel_irrelevant`. -/
def turnWhile (alive : Nat → Bool) : Nat → Turnstyle → Except String Turnstyle
  | 0, ts => .ok ts
  | fuel + 1, ts =>
      match turn alive ts with
      | .error e => .error e
      | .ok (false, ts2) => .ok ts2
      | .ok (true, ts2) => turnWhile alive fuel ts2

/-- `fn drop(&mut self)` body, `while self.turn() {}`: drain the queue by
turning until `turn` returns `false`.  Queue length plus one calls
always suffice, so this is the loop's exact result.  The source runs
this for EVERY dropped handle (the `Drop` impl is on the `Clone`-derived
struct and never checks the reference count). -/
def dropHandle (alive : Nat → Bool) (ts : Turnstyle) : Except String Turnstyle :=
  turnWhile alive (ts.waiters.length + 1) ts

/-- Result a Waiter observes: `some v` once the value `v` was delivered
to its slot, `none` while nothing has been sent on its channel yet. -/
def resolved (ts : Turnstyle) (id : Nat) : Option Nat :=
  ts.fired.lookup id

/-- Repeat `join` n times, keeping only the state. -/
def joinN : Nat → Turnstyle → Turnstyle
  | 0, ts => ts
  | n + 1, ts => joinN n (join ts).1

/-- Repeat `turn` n times, propagating a panic. -/
def turnN (alive : Nat → Bool) : Nat → Turnstyle → Except String Turnstyle
  | 0, ts => .ok ts
  | n + 1, ts =>
      match turn alive ts with
      | .error e => .error e
      | .ok (_, ts2) => turnN alive n ts2

end Turnstyle

/-- A caller-issued call: `join` or `turn` (from any clone — all clones
share the one state). -/
inductive Op
  | join
  | turn
deriving DecidableEq, Repr

/-- Run a sequence of calls against the shared state, propagating a
panic of `turn`. -/
def runOps (alive : Nat → Bool) : List Op → Turnstyle → Except String Turnstyle
  | [], ts => .ok ts
  | Op.join :: ops, ts => runOps alive ops (ts.join).1
  | Op.turn :: ops, ts =>
      match ts.turn alive with
      | .error e => .error e
      | .ok (_, ts2) => runOps alive ops ts2

/-- Delivery log produced by draining the slots `l` in order starting at
counter value `v`: each slot is paired with the next counter value. -/
def fireSeq : List Nat → Nat → List (Nat × Nat)
  | [], _ => []
  | w :: l, v => (w, v) :: fireSeq l (v + 1)

/-- State invariant maintained by every `join`/`turn` from `Turnstyle.new`:
the counter equals the number of deliveries so far, the delivered
sequence numbers are exactly `0, 1, ...` in firing order, and the fired
slot ids followed by the still-pending ids list every id ever created,
in creation order (so firing order is insertion order). -/
def GateInv (ts : Turnstyle) : Prop :=
  ts.version = ts.fired.length ∧
  ts.fired.map Prod.snd = List.range ts.fired.length ∧
  ts.fired.map Prod.fst ++ ts.waiters = List.range ts.nextId

namespace Turnstyle

/-- C5 (claim): on an empty queue `turn` returns `false` and is a
complete no-op: the state (counter included) is returned unchanged,
for every liveness environment. -/
theorem turn_empty_noop (alive : Nat → Bool) (ts : Turnstyle)
    (h : ts.waiters = []) : ts.turn alive = .ok (false, ts) := by
  unfold turn
  rw [h]

/-- C5 witness: `turn` on the fresh turnstyle returns `false` and leaves
it unchanged. -/
theorem turn_empty_noop_witness :
    Turnstyle.new.turn (fun _ => true) = .ok (false, Turnstyle.new) :=
  turn_empty_noop (fun _ => true) Turnstyle.new rfl

/-- C6 (amended): on a non-empty queue whose head slot's Waiter is still
held, `turn` returns `true`, removes exactly the head slot, increments
the counter by exactly one and delivers the counter's previous value
to that slot.  (When the head Waiter was discarded the source panics
instead — see `turn_head_discarded_panics`.) -/
theorem turn_nonempty_fires_head (alive : Nat → Bool) (ts : Turnstyle)
    (w : Nat) (rest : List Nat) (hq : ts.waiters = w :: rest)
    (hw : alive w = true) :
    ts.turn alive =
      .ok (true, { ts with
                     waiters := rest,
                     version := ts.version + 1,
                     fired := ts.fired ++ [(w, ts.version)] }) := by
  unfold turn
  rw [hq]
  simp [hw]

/-- C6 witness: one `turn` on a queue holding slots 0 and 1 with both
Waiters held pops slot 0, bumps the counter from 0 to 1 and delivers 0. -/
theorem turn_nonempty_fires_head_witness :
    Turnstyle.turn (fun _ => true)
        { waiters := [0, 1], version := 0, nextId := 2, fired := [] } =
      .ok (true, { waiters := [1], version := 1, nextId := 2, fired := [(0, 0)] }) :=
  turn_nonempty_fires_head (fun _ => true)
    { waiters := [0, 1], version := 0, nextId := 2, fired := [] } 0 [1] rfl rfl

/-- C6 counterexample: the claim "for every state with a non-empty queue,
`turn` returns true" fails when the head Waiter was discarded: on the
state with pending slot 5 whose Waiter is gone, `turn` panics (the
`expect` on the failed send) instead of returning `true`. -/
theorem turn_nonempty_not_always_true :
    Turnstyle.turn (fun _ => false)
        { waiters := [5], version := 3, nextId := 6, fired := [] } =
      .error sendFailMsg := rfl

/-- C1 (amended): firing a slot whose Waiter has already been discarded is
an error in the source: `turn` pops the slot, the `send` fails because
the receiver is gone, and the `expect` panics with "turnstyle failed to
signal next in line" — `turn` does not return `true` and the failure is
not ignored. -/
theorem turn_head_discarded_panics (alive : Nat → Bool) (ts : Turnstyle)
    (w : Nat) (rest : List Nat) (hq : ts.waiters = w :: rest)
    (hw : alive w = false) : ts.turn alive = .error sendFailMsg := by
  unfold turn
  rw [hq]
  simp [hw]

/-- C1 amended-claim witness: with one pending slot whose Waiter is gone,
`turn` panics. -/
theorem turn_head_discarded_panics_witness :
    Turnstyle.turn (fun _ => false)
        { waiters := [0], version := 0, nextId := 1, fired := [] } =
      .error sendFailMsg :=
  turn_head_discarded_panics (fun _ => false)
    { waiters := [0], version := 0, nextId := 1, fired := [] } 0 [] rfl rfl

/-- C1 counterexample: the claimed property "turn still succeeds, returns
`true`, and never fails or panics when the head Waiter was discarded"
is false: on the concrete state with one pending slot 0 whose Waiter
was dropped, `turn` panics with the `expect` message and in particular
does not return `true`. -/
theorem turn_discarded_waiter_panics_cex :
    Turnstyle.turn (fun _ => false)
          { waiters := [0], version := 7, nextId := 1, fired := [] } =
        .error sendFailMsg ∧
      ∀ ts2 : Turnstyle,
        Turnstyle.turn (fun _ => false)
            { waiters := [0], version := 7, nextId := 1, fired := [] } ≠
          .ok (true, ts2) := by
  constructor
  · rfl
  · intro ts2 h
    simp [Turnstyle.turn, sendFailMsg] at h

/-- Unfolding of `turn` on an explicit state with a live head slot. -/
theorem turn_mk_alive (alive : Nat → Bool) (w : Nat) (rest : List Nat)
    (v nid : Nat) (f : List (Nat × Nat)) (hw : alive w = true) :
    turn alive ⟨w :: rest, v, nid, f⟩ =
      .ok (true, ⟨rest, v + 1, nid, f ++ [(w, v)]⟩) := by
  simp [turn, hw]

/-- Unfolding of `joinN` on an explicit state: n joins append the fresh ids
`nid, nid+1, ...` at the tail and advance the id supply by n, touching
neither the counter nor the delivery log. -/
theorem joinN_mk : ∀ (n : Nat) (l : List Nat) (v nid : Nat) (f : List (Nat × Nat)),
    joinN n ⟨l, v, nid, f⟩ = ⟨l ++ List.range' nid n, v, nid + n, f⟩ := by
  intro n
  induction n with
  | zero => intro l v nid f; simp [joinN]
  | succ n ih =>
      intro l v nid f
      have h1 : joinN (n + 1) ⟨l, v, nid, f⟩ = joinN n ⟨l ++ [nid], v, nid + 1, f⟩ := rfl
      rw [h1, ih]
      simp [List.range'_succ, List.append_assoc]
      omega

/-- Turning `d` more times (with every Waiter still held) on the canonical
state in which the first `i` of `i + m` freshly joined slots have been
admitted: the next `d` slots fire, each with the sequence number equal
to its slot id. -/
theorem turnN_canonical : ∀ (d i m : Nat), d ≤ m →
    turnN (fun _ => true) d
        ⟨List.range' i m, i, i + m, (List.range i).map (fun a => (a, a))⟩ =
      .ok ⟨List.range' (i + d) (m - d), i + d, i + m,
           (List.range (i + d)).map (fun a => (a, a))⟩ := by
  intro d
  induction d with
  | zero => intro i m _; simp [turnN]
  | succ d ih =>
      intro i m hd
      obtain ⟨m2, rfl⟩ : ∃ m2, m = m2 + 1 := ⟨m - 1, by omega⟩
      rw [List.range'_succ]
      have hstep : turnN (fun _ => true) (d + 1)
          ⟨i :: List.range' (i + 1) m2, i, i + (m2 + 1),
           (List.range i).map (fun a => (a, a))⟩ =
          turnN (fun _ => true) d
            ⟨List.range' (i + 1) m2, i + 1, i + (m2 + 1),
             (List.range i).map (fun a => (a, a)) ++ [(i, i)]⟩ := by
        simp [turnN, turn]
      rw [hstep]
      have hfm : (List.range i).map (fun a => (a, a)) ++ [(i, i)] =
          (List.range (i + 1)).map (fun a => (a, a)) := by
        rw [List.range_succ, List.map_append]
        rfl
      have h2 : i + (m2 + 1) = (i + 1) + m2 := by omega
      rw [hfm, h2, ih (i + 1) m2 (by omega)]
      have h3 : i + 1 + d = i + (d + 1) := by omega
      rw [h3, Nat.succ_sub_succ]

/-- `List.lookup` searches the left list first. -/
theorem lookup_append_eq (a : Nat) : ∀ (l1 l2 : List (Nat × Nat)),
    List.lookup a (l1 ++ l2) =
      match List.lookup a l1 with
      | some b => some b
      | none => List.lookup a l2 := by
  intro l1
  induction l1 with
  | nil => intro l2; simp [List.lookup]
  | cons p l ih =>
      intro l2
      obtain ⟨b, c⟩ := p
      by_cases h : a = b
      · subst h; simp [List.lookup]
      · have hb : (a == b) = false := by simp [h]
        simp [List.lookup, hb, ih]

/-- Looking up slot `a` in the diagonal delivery log over slots `0..j-1`. -/
theorem lookup_diag (a : Nat) : ∀ j : Nat,
    List.lookup a ((List.range j).map (fun k => (k, k))) =
      if a < j then some a else none := by
  intro j
  induction j with
  | zero => simp [List.lookup]
  | succ j ih =>
      rw [List.range_succ, List.map_append, lookup_append_eq, ih]
      by_cases h : a < j
      · have h2 : a < j + 1 := by omega
        simp [h, h2]
      · by_cases he : a = j
        · subst he
          simp [List.lookup]
        · have h2 : ¬ a < j + 1 := by omega
          have hb : (a == j) = false := by simp [he]
          simp [h, h2, hb, List.lookup]

/-- C3: after N joins on a fresh turnstyle followed by j ≤ N turns (every
Waiter still held), the k-th joined Waiter (1-indexed, 1 ≤ k ≤ N) has
resolved exactly when k ≤ j — that is, only once at least k turns have
occurred — and then with sequence number k − 1; the sequence numbers
delivered so far are 0, 1, ..., j−1 in firing order: starting at 0,
strictly increasing, with no gaps and no repeats. -/
theorem joins_then_turns_sequence (N k j : Nat) (hk1 : 1 ≤ k) (_hkN : k ≤ N)
    (hjN : j ≤ N) :
    ∃ ts : Turnstyle,
      turnN (fun _ => true) j (joinN N Turnstyle.new) = .ok ts ∧
      ts.fired.map Prod.snd = List.range j ∧
      (k ≤ j → ts.resolved (k - 1) = some (k - 1)) ∧
      (j < k → ts.resolved (k - 1) = none) := by
  have hstart : joinN N Turnstyle.new =
      ⟨List.range' 0 N, 0, 0 + N, (List.range 0).map (fun a => (a, a))⟩ := by
    have hnew : Turnstyle.new = (⟨[], 0, 0, []⟩ : Turnstyle) := rfl
    rw [hnew, joinN_mk]
    simp
  refine ⟨⟨List.range' (0 + j) (N - j), 0 + j, 0 + N,
          (List.range (0 + j)).map (fun a => (a, a))⟩, ?_, ?_, ?_, ?_⟩
  · rw [hstart]
    exact turnN_canonical j 0 N hjN
  · simp [List.map_map, Function.comp_def]
  · intro hkj
    simp only [resolved]
    rw [lookup_diag, if_pos (by omega)]
  · intro hjk
    simp only [resolved]
    rw [lookup_diag, if_neg (by omega)]

/-- C3 witness: three joins then two turns — the second Waiter has resolved
with sequence number 1, and the delivered numbers so far are 0, 1. -/
theorem joins_then_turns_sequence_witness :
    ∃ ts : Turnstyle,
      Turnstyle.turnN (fun _ => true) 2 (Turnstyle.joinN 3 Turnstyle.new) = .ok ts ∧
      ts.fired.map Prod.snd = List.range 2 ∧
      (2 ≤ 2 → ts.resolved (2 - 1) = some (2 - 1)) ∧
      (2 < 2 → ts.resolved (2 - 1) = none) :=
  joins_then_turns_sequence 3 2 2 (by norm_num) (by norm_num) (by norm_num)

/-- A full drain visits exactly the drained slots, in queue order. -/
theorem fireSeq_map_fst : ∀ (l : List Nat) (v : Nat), (fireSeq l v).map Prod.fst = l := by
  intro l
  induction l with
  | nil => intro v; rfl
  | cons w l ih => intro v; simp [fireSeq, ih]

/-- Draining freshly joined slots `a, a+1, ...` starting from counter value
`a` pairs every slot with its own id. -/
theorem fireSeq_range' : ∀ (n a : Nat),
    fireSeq (List.range' a n) a = (List.range' a n).map (fun k => (k, k)) := by
  intro n
  induction n with
  | zero => intro a; rfl
  | succ n ih =>
      intro a
      rw [List.range'_succ]
      simp [fireSeq, ih]

/-- The `while self.turn() {}` loop is insensitive to its fuel once the fuel
exceeds the queue length: the loop stops at the first `false` result (or
panic), so `dropHandle` computes the loop's exact outcome. -/
theorem turnWhile_fuel_irrelevant (alive : Nat → Bool) :
    ∀ (f g : Nat) (ts : Turnstyle), ts.waiters.length < f → ts.waiters.length < g →
      turnWhile alive f ts = turnWhile alive g ts := by
  intro f
  induction f with
  | zero => intro g ts hf hg; omega
  | succ f ih =>
      intro g ts hf hg
      obtain ⟨g2, rfl⟩ : ∃ g2, g = g2 + 1 := ⟨g - 1, by omega⟩
      cases hts : ts.waiters with
      | nil =>
          have hturn : ts.turn alive = .ok (false, ts) := by
            unfold turn; rw [hts]
          simp [turnWhile, hturn]
      | cons w rest =>
          cases hw : alive w with
          | false =>
              have hturn : ts.turn alive = .error sendFailMsg := by
                unfold turn; rw [hts]; simp [hw]
              simp [turnWhile, hturn]
          | true =>
              have hturn : ts.turn alive =
                  .ok (true, { ts with
                                 waiters := rest,
                                 version := ts.version + 1,
                                 fired := ts.fired ++ [(w, ts.version)] }) := by
                unfold turn; rw [hts]; simp [hw]
              have hlen : rest.length < f := by
                rw [hts] at hf; simp at hf; omega
              have hlen2 : rest.length < g2 := by
                rw [hts] at hg; simp at hg; omega
              simp only [turnWhile, hturn]
              exact ih g2 _ hlen hlen2

/-- A drain with every Waiter still held fires all pending slots, in queue
order, with consecutive counter values. -/
theorem turnWhile_all_held : ∀ (l : List Nat) (fuel v nid : Nat) (f : List (Nat × Nat)),
    l.length < fuel →
    turnWhile (fun _ => true) fuel ⟨l, v, nid, f⟩ =
      .ok ⟨[], v + l.length, nid, f ++ fireSeq l v⟩ := by
  intro l
  induction l with
  | nil =>
      intro fuel v nid f hf
      obtain ⟨f2, rfl⟩ : ∃ f2, fuel = f2 + 1 := ⟨fuel - 1, by omega⟩
      simp [turnWhile, turn, fireSeq]
  | cons w l ih =>
      intro fuel v nid f hf
      obtain ⟨f2, rfl⟩ : ∃ f2, fuel = f2 + 1 := ⟨fuel - 1, by omega⟩
      have hturn : turn (fun _ => true) ⟨w :: l, v, nid, f⟩ =
          .ok (true, ⟨l, v + 1, nid, f ++ [(w, v)]⟩) :=
        turn_mk_alive _ w l v nid f rfl
      simp only [turnWhile, hturn]
      rw [ih f2 (v + 1) nid (f ++ [(w, v)]) (by simp at hf; omega)]
      have harith : v + 1 + l.length = v + (l.length + 1) := by omega
      rw [harith]
      simp [fireSeq, List.append_assoc]

/-- Explicit result of `dropHandle` when every Waiter is still held. -/
theorem dropHandle_all_held (ts : Turnstyle) :
    dropHandle (fun _ => true) ts =
      .ok ⟨[], ts.version + ts.waiters.length, ts.nextId,
           ts.fired ++ fireSeq ts.waiters ts.version⟩ := by
  obtain ⟨l, v, nid, f⟩ := ts
  exact turnWhile_all_held l (l.length + 1) v nid f (by omega)

/-- C2 (code evaluated at the failing input): the source's `Drop` glue runs
`while self.turn() {}` for EVERY dropped handle — the body never
consults the reference count — so dropping one clone of a turnstyle
holding pending slot 0 fires that slot (delivering sequence number 0)
and bumps the counter from 0 to 1 even while other clones of the same
turnstyle are still alive.  The claimed behavior (no slot fired, queue
and counter unchanged) does not hold on the code. -/
theorem clone_drop_drains_queue :
    Turnstyle.dropHandle (fun _ => true)
        { waiters := [0], version := 0, nextId := 1, fired := [] } =
      .ok { waiters := [], version := 1, nextId := 1, fired := [(0, 0)] } := rfl

/-- C4: dropping a fresh turnstyle (with all its clones) while M un-admitted
Waiters are pending fires all M slots during the drop, in original join
order, delivering the values 0, 1, ..., M−1 the counter would have
assigned; and the drain is exactly "turn repeatedly until it returns
false": the `while turn()` loop with any sufficient fuel computes the
very same result. -/
theorem drop_fires_all_pending (M : Nat) :
    ∃ ts : Turnstyle,
      Turnstyle.dropHandle (fun _ => true) (Turnstyle.joinN M Turnstyle.new) = .ok ts ∧
      ts.fired = (List.range M).map (fun k => (k, k)) ∧
      ts.waiters = [] ∧
      ts.version = M ∧
      ∀ fuel : Nat, M < fuel →
        Turnstyle.turnWhile (fun _ => true) fuel (Turnstyle.joinN M Turnstyle.new) =
          Turnstyle.dropHandle (fun _ => true) (Turnstyle.joinN M Turnstyle.new) := by
  have hstart : joinN M Turnstyle.new = ⟨List.range' 0 M, 0, 0 + M, []⟩ := by
    have hnew : Turnstyle.new = (⟨[], 0, 0, []⟩ : Turnstyle) := rfl
    rw [hnew, joinN_mk]
    simp
  refine ⟨⟨[], 0 + (List.range' 0 M).length, 0 + M, [] ++ fireSeq (List.range' 0 M) 0⟩,
         ?_, ?_, rfl, ?_, ?_⟩
  · rw [hstart]
    exact dropHandle_all_held _
  · show [] ++ fireSeq (List.range' 0 M) 0 = (List.range M).map (fun k => (k, k))
    rw [List.nil_append, fireSeq_range', List.range_eq_range']
  · show 0 + (List.range' 0 M).length = M
    simp [List.length_range']
  · intro fuel hfuel
    rw [hstart]
    unfold dropHandle
    apply turnWhile_fuel_irrelevant
    · simp [List.length_range']
      omega
    · simp [List.length_range']

/-- The invariant holds of a fresh turnstyle. -/
theorem gateInv_new : GateInv Turnstyle.new :=
  ⟨rfl, rfl, rfl⟩

/-- `join` preserves the invariant. -/
theorem gateInv_join (ts : Turnstyle) (h : GateInv ts) : GateInv (ts.join).1 := by
  obtain ⟨h1, h2, h3⟩ := h
  refine ⟨h1, h2, ?_⟩
  show ts.fired.map Prod.fst ++ (ts.waiters ++ [ts.nextId]) = List.range (ts.nextId + 1)
  rw [List.range_succ, ← List.append_assoc, h3]

/-- A non-panicking `turn` preserves the invariant. -/
theorem gateInv_turn (alive : Nat → Bool) (ts ts2 : Turnstyle) (b : Bool)
    (h : GateInv ts) (ht : ts.turn alive = .ok (b, ts2)) : GateInv ts2 := by
  obtain ⟨h1, h2, h3⟩ := h
  cases hts : ts.waiters with
  | nil =>
      have heq : ts.turn alive = .ok (false, ts) := by
        unfold turn; rw [hts]
      rw [heq] at ht
      simp only [Except.ok.injEq, Prod.mk.injEq] at ht
      obtain ⟨hb, hts2⟩ := ht
      subst hts2
      exact ⟨h1, h2, h3⟩
  | cons w rest =>
      cases hw : alive w with
      | false =>
          have heq : ts.turn alive = .error sendFailMsg := by
            unfold turn; rw [hts]; simp [hw]
          rw [heq] at ht
          exact Except.noConfusion ht
      | true =>
          have heq : ts.turn alive =
              .ok (true, { ts with
                             waiters := rest,
                             version := ts.version + 1,
                             fired := ts.fired ++ [(w, ts.version)] }) := by
            unfold turn; rw [hts]; simp [hw]
          rw [heq] at ht
          simp only [Except.ok.injEq, Prod.mk.injEq] at ht
          obtain ⟨hb, hts2⟩ := ht
          subst hts2
          refine ⟨?_, ?_, ?_⟩
          · show ts.version + 1 = (ts.fired ++ [(w, ts.version)]).length
            simp [h1]
          · show (ts.fired ++ [(w, ts.version)]).map Prod.snd =
                List.range (ts.fired ++ [(w, ts.version)]).length
            rw [List.map_append, List.length_append]
            simp only [List.map_cons, List.map_nil, List.length_cons, List.length_nil]
            rw [h2, h1, List.range_succ]
          · show (ts.fired ++ [(w, ts.version)]).map Prod.fst ++ rest = List.range ts.nextId
            rw [List.map_append, List.append_assoc, ← h3, hts]
            rfl

/-- `runOps` preserves the invariant. -/
theorem gateInv_runOps (alive : Nat → Bool) : ∀ (ops : List Op) (ts ts2 : Turnstyle),
    runOps alive ops ts = .ok ts2 → GateInv ts → GateInv ts2 := by
  intro ops
  induction ops with
  | nil =>
      intro ts ts2 h hi
      simp only [runOps, Except.ok.injEq] at h
      exact h ▸ hi
  | cons op ops ih =>
      intro ts ts2 h hi
      cases op with
      | join =>
          exact ih _ _ (by simpa [runOps] using h) (gateInv_join ts hi)
      | turn =>
          cases hturn : ts.turn alive with
          | error e =>
              simp only [runOps, hturn] at h
              exact Except.noConfusion h
          | ok p =>
              obtain ⟨b, t⟩ := p
              simp only [runOps, hturn] at h
              exact ih t ts2 h (gateInv_turn alive ts t b hi hturn)

/-- A single `turn` never lowers the counter. -/
theorem version_le_turn (alive : Nat → Bool) (ts ts2 : Turnstyle) (b : Bool)
    (ht : ts.turn alive = .ok (b, ts2)) : ts.version ≤ ts2.version := by
  cases hts : ts.waiters with
  | nil =>
      have heq : ts.turn alive = .ok (false, ts) := by
        unfold turn; rw [hts]
      rw [heq] at ht
      simp only [Except.ok.injEq, Prod.mk.injEq] at ht
      obtain ⟨hb, hts2⟩ := ht
      subst hts2
      exact Nat.le_refl _
  | cons w rest =>
      cases hw : alive w with
      | false =>
          have heq : ts.turn alive = .error sendFailMsg := by
            unfold turn; rw [hts]; simp [hw]
          rw [heq] at ht
          exact Except.noConfusion ht
      | true =>
          have heq : ts.turn alive =
              .ok (true, { ts with
                             waiters := rest,
                             version := ts.version + 1,
                             fired := ts.fired ++ [(w, ts.version)] }) := by
            unfold turn; rw [hts]; simp [hw]
          rw [heq] at ht
          simp only [Except.ok.injEq, Prod.mk.injEq] at ht
          obtain ⟨hb, hts2⟩ := ht
          subst hts2
          exact Nat.le_succ _

/-- A run of calls never lowers the counter. -/
theorem version_le_runOps (alive : Nat → Bool) : ∀ (ops : List Op) (ts ts2 : Turnstyle),
    runOps alive ops ts = .ok ts2 → ts.version ≤ ts2.version := by
  intro ops
  induction ops with
  | nil =>
      intro ts ts2 h
      simp only [runOps, Except.ok.injEq] at h
      exact h ▸ Nat.le_refl _
  | cons op ops ih =>
      intro ts ts2 h
      cases op with
      | join =>
          exact ih (ts.join).1 ts2 (by simpa [runOps] using h)
      | turn =>
          cases hturn : ts.turn alive with
          | error e =>
              simp only [runOps, hturn] at h
              exact Except.noConfusion h
          | ok p =>
              obtain ⟨b, t⟩ := p
              simp only [runOps, hturn] at h
              exact Nat.le_trans (version_le_turn alive ts t b hturn) (ih t ts2 h)

/-- Running a longer call sequence continues from the shorter one's state. -/
theorem runOps_append (alive : Nat → Bool) : ∀ (l1 l2 : List Op) (ts ts2 : Turnstyle),
    runOps alive l1 ts = .ok ts2 →
    runOps alive (l1 ++ l2) ts = runOps alive l2 ts2 := by
  intro l1
  induction l1 with
  | nil =>
      intro l2 ts ts2 h
      simp only [runOps, Except.ok.injEq] at h
      rw [List.nil_append, h]
  | cons op l1 ih =>
      intro l2 ts ts2 h
      cases op with
      | join =>
          rw [List.cons_append]
          show runOps alive (l1 ++ l2) (ts.join).1 = runOps alive l2 ts2
          exact ih l2 _ ts2 (by simpa [runOps] using h)
      | turn =>
          rw [List.cons_append]
          cases hturn : ts.turn alive with
          | error e =>
              simp only [runOps, hturn] at h
              exact Except.noConfusion h
          | ok p =>
              obtain ⟨b, t⟩ := p
              simp only [runOps, hturn] at h ⊢
              exact ih l2 t ts2 h

/-- In an invariant state the fired slot ids are `0, 1, ...` in order. -/
theorem gateInv_fst_range (ts : Turnstyle) (h : GateInv ts) :
    ts.fired.map Prod.fst = List.range ts.fired.length := by
  obtain ⟨h1, h2, h3⟩ := h
  have hlen : ts.fired.length + ts.waiters.length = ts.nextId := by
    have hl := congrArg List.length h3
    simpa using hl
  have htake := congrArg (List.take (ts.fired.map Prod.fst).length) h3
  rw [List.take_left] at htake
  rw [htake, List.take_range, List.length_map]
  congr 1
  omega

/-- C7: the queue is strictly FIFO.  After any sequence of `join`/`turn`
calls from a fresh turnstyle (issued from any clones — all share one
state), the slots fired so far are exactly the first `fired.length`
slots ever inserted, in insertion order, and the still-pending slots
follow in insertion order: a participant who joins earlier is admitted
no later than one who joins afterward. -/
theorem fifo_order (alive : Nat → Bool) (ops : List Op) (ts : Turnstyle)
    (h : runOps alive ops Turnstyle.new = .ok ts) :
    ts.fired.map Prod.fst = List.range ts.fired.length ∧
    ts.fired.map Prod.fst ++ ts.waiters = List.range ts.nextId := by
  have hinv := gateInv_runOps alive ops Turnstyle.new ts h gateInv_new
  exact ⟨gateInv_fst_range ts hinv, hinv.2.2⟩

/-- C7 witness: after join, join, turn the fired slots are [0] = range 1 and
slot 1 is still pending, 0 before 1 — insertion order. -/
theorem fifo_order_witness :
    (([(0, 0)] : List (Nat × Nat)).map Prod.fst = List.range 1) ∧
    (([(0, 0)] : List (Nat × Nat)).map Prod.fst ++ [1] = List.range 2) :=
  fifo_order (fun _ => true) [Op.join, Op.join, Op.turn]
    { waiters := [1], version := 1, nextId := 2, fired := [(0, 0)] } rfl

/-- C10: from `Turnstyle.new` (counter 0), after any sequence of calls the
counter equals the number of deliveries — one per `turn` call that
returned `true` — the n-th successful turn (1-indexed) delivered
sequence number n−1, and the counter never decreases as further calls
are appended to the run. -/
theorem counter_counts_turns (alive : Nat → Bool) (ops : List Op) (ts : Turnstyle)
    (h : runOps alive ops Turnstyle.new = .ok ts) :
    ts.version = ts.fired.length ∧
    ts.fired.map Prod.snd = List.range ts.version ∧
    ∀ (more : List Op) (ts2 : Turnstyle),
      runOps alive (ops ++ more) Turnstyle.new = .ok ts2 → ts.version ≤ ts2.version := by
  obtain ⟨h1, h2, h3⟩ := gateInv_runOps alive ops Turnstyle.new ts h gateInv_new
  refine ⟨h1, ?_, ?_⟩
  · rw [h1]
    exact h2
  · intro more ts2 h4
    rw [runOps_append alive ops more Turnstyle.new ts h] at h4
    exact version_le_runOps alive more ts ts2 h4

/-- C10 witness: after one join and one successful turn the counter is 1 =
number of successful turns, the delivered numbers are [0], and no
continuation of the run lowers the counter below 1. -/
theorem counter_counts_turns_witness :
    (1 = ([(0, 0)] : List (Nat × Nat)).length) ∧
    (([(0, 0)] : List (Nat × Nat)).map Prod.snd = List.range 1) ∧
    ∀ (more : List Op) (ts2 : Turnstyle),
      runOps (fun _ => true) ([Op.join, Op.turn] ++ more) Turnstyle.new = .ok ts2 →
        1 ≤ ts2.version :=
  counter_counts_turns (fun _ => true) [Op.join, Op.turn]
    { waiters := [], version := 1, nextId := 1, fired := [(0, 0)] } rfl

/-- C9 (amended): each slot is fired at most once (the fired ids never
repeat), and — provided every Waiter is still held — teardown fires
every slot ever inserted, exactly once, so a sender is never destroyed
without firing and the Waiter error state is unreachable.  When a
pending slot's Waiter HAS been discarded the source instead panics on
reaching it (see the counterexample), so the unconditional claim fails. -/
theorem every_slot_fired_exactly_once (ops : List Op) (ts : Turnstyle)
    (h : runOps (fun _ => true) ops Turnstyle.new = .ok ts) :
    (ts.fired.map Prod.fst).Nodup ∧
    ∃ ts2 : Turnstyle,
      Turnstyle.dropHandle (fun _ => true) ts = .ok ts2 ∧
      ts2.fired.map Prod.fst = List.range ts2.nextId ∧
      ts2.waiters = [] := by
  have hinv := gateInv_runOps _ ops Turnstyle.new ts h gateInv_new
  constructor
  · rw [gateInv_fst_range ts hinv]
    exact List.nodup_range _
  · refine ⟨_, dropHandle_all_held ts, ?_, rfl⟩
    show (ts.fired ++ fireSeq ts.waiters ts.version).map Prod.fst = List.range ts.nextId
    rw [List.map_append, fireSeq_map_fst, hinv.2.2]

/-- C9 amended-claim witness: one pending slot, Waiter held — fired ids have
no repeats and teardown fires slot 0, emptying the queue. -/
theorem every_slot_fired_exactly_once_witness :
    ((({ waiters := [0], version := 0, nextId := 1, fired := [] } : Turnstyle).fired.map
        Prod.fst).Nodup) ∧
    ∃ ts2 : Turnstyle,
      Turnstyle.dropHandle (fun _ => true)
          { waiters := [0], version := 0, nextId := 1, fired := [] } = .ok ts2 ∧
      ts2.fired.map Prod.fst = List.range ts2.nextId ∧
      ts2.waiters = [] :=
  every_slot_fired_exactly_once [Op.join]
    { waiters := [0], version := 0, nextId := 1, fired := [] } rfl

/-- C9 counterexample: "every inserted slot is eventually fired ... even if
its Waiter was discarded beforehand" fails on the code: with one pending
slot whose Waiter was discarded, teardown panics (the `expect` on the
failed send) — the slot's value is never delivered anywhere and no final
state results. -/
theorem discarded_waiter_breaks_drain_cex :
    Turnstyle.dropHandle (fun _ => false) (Turnstyle.joinN 1 Turnstyle.new) =
      .error sendFailMsg := rfl

/-- C8: `join` is total (it is a plain function into `Turnstyle × Nat`,
with no error outcome) and on every state it appends exactly one fresh
sender at the tail of the queue, grows the queue length by one, leaves
the counter and the delivery log untouched, and returns the id of the
slot backing the new Waiter — the very id just appended. -/
theorem join_appends_one_slot (ts : Turnstyle) :
    (ts.join).1.waiters = ts.waiters ++ [(ts.join).2] ∧
      (ts.join).1.waiters.length = ts.waiters.length + 1 ∧
      (ts.join).1.version = ts.version ∧
      (ts.join).1.fired = ts.fired ∧
      (ts.join).2 = ts.nextId ∧
      (ts.join).1.nextId = ts.nextId + 1 := by
  refine ⟨rfl, ?_, rfl, rfl, rfl, rfl⟩
  simp [join]

end Turnstyle
